import Mathlib

set_option maxHeartbeats 1000000

namespace CV

/-- Extended cost value: a finite metric, or the floating-point infinity the
source uses for unreachable destinations.  The numeric metrics of the source
(Python floats) are modelled as integers: every claim depends only on ordered
addition and on the integer thresholds 1, 15 and 16. -/
inductive ECost where
  | fin : ℤ → ECost
  | inf : ECost
deriving DecidableEq, Repr

/-- Addition of costs (`+` on Python floats, absorbing infinity). -/
def eadd : ECost → ECost → ECost
  | .fin a, .fin b => .fin (a + b)
  | _, _ => .inf

/-- Strict comparison of costs (`<` on Python floats with infinity on top). -/
def elt : ECost → ECost → Bool
  | .fin a, .fin b => decide (a < b)
  | .fin _, .inf => true
  | .inf, _ => false

@[simp] lemma elt_inf_left (c : ECost) : elt ECost.inf c = false := by cases c <;> rfl

@[simp] lemma elt_fin_inf (q : ℤ) : elt (ECost.fin q) ECost.inf = true := rfl

lemma elt_fin_fin {a b : ℤ} : elt (ECost.fin a) (ECost.fin b) = true ↔ a < b := by simp [elt]

lemma elt_ne_inf {a b : ECost} (h : elt a b = true) : a ≠ ECost.inf := by
  cases a <;> simp_all [elt]

lemma elt_trans {a b c : ECost} (h1 : elt a b = true) (h2 : elt b c = true) :
    elt a c = true := by
  cases a <;> cases b <;> cases c <;> simp_all [elt] <;> linarith

lemma elt_asymm {a b : ECost} (h : elt a b = true) : elt b a = false := by
  cases a <;> cases b <;> simp_all [elt] <;> linarith

lemma elt_irrefl (a : ECost) : elt a a = false := by cases a <;> simp [elt]

lemma elt_of_elt_of_not_elt {a b c : ECost} (h1 : elt a b = true) (h2 : elt c b = false) :
    elt a c = true := by
  cases a <;> cases b <;> cases c <;> simp_all [elt] <;> linarith

lemma elt_fin_mono {q p : ℤ} {c : ECost} (hq : q ≤ p) (h : elt (ECost.fin p) c = true) :
    elt (ECost.fin q) c = true := by
  cases c <;> simp_all [elt] <;> linarith

lemma le_of_not_elt15 {q : ℤ} (h : elt (ECost.fin 15) (ECost.fin q) = false) : q ≤ 15 := by
  simp [elt] at h
  linarith

/-- Association list lookup: mirrors Python dict indexing (keys are unique in
every state the program builds, since Python dicts cannot hold duplicates). -/
def lookupA {α : Type} : List (String × α) → String → Option α
  | [], _ => none
  | p :: rest, k => if p.1 = k then some p.2 else lookupA rest k

/-- Membership test: `key in dict`. -/
def memA {α : Type} (l : List (String × α)) (k : String) : Bool :=
  (lookupA l k).isSome

/-- In-place value replacement: `dict[key] = value` on an existing key keeps
its position in the Python insertion order. -/
def updateA {α : Type} : List (String × α) → String → α → List (String × α)
  | [], _, _ => []
  | p :: rest, k, v => if p.1 = k then (k, v) :: rest else p :: updateA rest k v

/-- Key removal: `del dict[key]`. -/
def eraseA {α : Type} : List (String × α) → String → List (String × α)
  | [], _ => []
  | p :: rest, k => if p.1 = k then rest else p :: eraseA rest k

lemma lookupA_append_some {α : Type} {l1 l2 : List (String × α)} {k : String} {v : α}
    (h : lookupA l1 k = some v) : lookupA (l1 ++ l2) k = some v := by
  induction l1 with
  | nil => exact absurd h (by simp [lookupA])
  | cons p rest ih =>
      by_cases hp : p.1 = k
      · simp only [lookupA, if_pos hp] at h
        simpa [List.cons_append, lookupA, if_pos hp] using h
      · simp only [lookupA, if_neg hp] at h
        simpa [List.cons_append, lookupA, if_neg hp] using ih h

lemma lookupA_append_none {α : Type} {l1 : List (String × α)} {k : String}
    (h : lookupA l1 k = none) (l2 : List (String × α)) :
    lookupA (l1 ++ l2) k = lookupA l2 k := by
  induction l1 with
  | nil => simp
  | cons p rest ih =>
      by_cases hp : p.1 = k
      · simp [lookupA, if_pos hp] at h
      · simp only [lookupA, if_neg hp] at h
        simpa [List.cons_append, lookupA, if_neg hp] using ih h

lemma lookupA_eq_none_iff {α : Type} {l : List (String × α)} {k : String} :
    lookupA l k = none ↔ k ∉ l.map Prod.fst := by
  induction l with
  | nil => simp [lookupA]
  | cons p rest ih =>
      by_cases hp : p.1 = k
      · simp [lookupA, if_pos hp, hp]
      · simp [lookupA, if_neg hp, ih, Ne.symm hp]

lemma lookupA_updateA_self {α : Type} {l : List (String × α)} {k : String} {v w : α}
    (h : lookupA l k = some v) : lookupA (updateA l k w) k = some w := by
  induction l with
  | nil => simp [lookupA] at h
  | cons p rest ih =>
      by_cases hp : p.1 = k
      · simp [updateA, if_pos hp, lookupA]
      · simp only [lookupA, if_neg hp] at h
        simpa [updateA, if_neg hp, lookupA, if_neg hp] using ih h

lemma lookupA_updateA_ne {α : Type} {l : List (String × α)} {k k' : String} {w : α}
    (hne : k' ≠ k) : lookupA (updateA l k w) k' = lookupA l k' := by
  induction l with
  | nil => simp [updateA]
  | cons p rest ih =>
      by_cases hp : p.1 = k
      · have : ¬ (k = k') := fun h => hne h.symm
        simp [updateA, if_pos hp, lookupA, this, hp]
      · by_cases hp' : p.1 = k'
        · simp [updateA, if_neg hp, lookupA, if_pos hp']
        · simpa [updateA, if_neg hp, lookupA, if_neg hp'] using ih

lemma lookupA_eraseA_ne {α : Type} {l : List (String × α)} {k k' : String}
    (hne : k' ≠ k) : lookupA (eraseA l k) k' = lookupA l k' := by
  induction l with
  | nil => simp [eraseA]
  | cons p rest ih =>
      by_cases hp : p.1 = k
      · have : ¬ (p.1 = k') := by
          rw [hp]; exact fun h => hne h.symm
        simp [eraseA, if_pos hp, lookupA, if_neg this]
      · by_cases hp' : p.1 = k'
        · simp [eraseA, if_neg hp, lookupA, if_pos hp']
        · simpa [eraseA, if_neg hp, lookupA, if_neg hp'] using ih

lemma lookupA_map_kp {α β : Type} (g : String → α → β) (l : List (String × α)) (k : String) :
    lookupA (l.map (fun p => (p.1, g p.1 p.2))) k = (lookupA l k).map (g k) := by
  induction l with
  | nil => simp [lookupA]
  | cons p rest ih =>
      by_cases hp : p.1 = k
      · subst hp
        simp [lookupA]
      · simpa [lookupA, if_neg hp] using ih

lemma lookupA_of_mem_nodup {α : Type} {l : List (String × α)} {k : String} {v : α}
    (hm : (k, v) ∈ l) (hnd : (l.map Prod.fst).Nodup) : lookupA l k = some v := by
  induction l with
  | nil => simp at hm
  | cons p rest ih =>
      have hnd' : (p.1 :: rest.map Prod.fst).Nodup := by simpa using hnd
      rcases List.mem_cons.mp hm with h | h
      · subst h
        simp [lookupA]
      · have hk : k ∈ rest.map Prod.fst := List.mem_map.mpr ⟨(k, v), h, rfl⟩
        have hp : p.1 ≠ k := by
          intro hh
          exact (List.nodup_cons.mp hnd').1 (hh ▸ hk)
        rw [lookupA, if_neg hp]
        exact ih h (by simpa using (List.nodup_cons.mp hnd').2)

lemma not_mem_keys_eraseA {α : Type} {l : List (String × α)} {k : String}
    (hnd : (l.map Prod.fst).Nodup) : k ∉ (eraseA l k).map Prod.fst := by
  induction l with
  | nil => simp [eraseA]
  | cons p rest ih =>
      have hnd' : (p.1 :: rest.map Prod.fst).Nodup := by simpa using hnd
      by_cases hp : p.1 = k
      · rw [eraseA, if_pos hp]
        have := (List.nodup_cons.mp hnd').1
        rw [hp] at this
        exact this
      · rw [eraseA, if_neg hp]
        simp only [List.map_cons, List.mem_cons]
        push_neg
        exact ⟨fun h => hp h.symm,
          ih (by simpa using (List.nodup_cons.mp hnd').2)⟩

lemma lookupA_eraseA_append {α : Type} {l : List (String × α)} {k : String} (v : α)
    (hnd : (l.map Prod.fst).Nodup) : lookupA (eraseA l k ++ [(k, v)]) k = some v := by
  have h1 : lookupA (eraseA l k) k = none :=
    lookupA_eq_none_iff.mpr (not_mem_keys_eraseA hnd)
  rw [lookupA_append_none h1]
  simp [lookupA]

lemma memA_append {α : Type} (l1 l2 : List (String × α)) (k : String) :
    memA (l1 ++ l2) k = (memA l1 k || memA l2 k) := by
  induction l1 with
  | nil => simp [memA, lookupA]
  | cons p rest ih =>
      by_cases hp : p.1 = k
      · simp [memA, lookupA, if_pos hp]
      · simpa [memA, lookupA, if_neg hp] using ih

lemma updateA_of_not_mem {α : Type} {l : List (String × α)} {k : String} (v : α)
    (h : lookupA l k = none) : updateA l k v = l := by
  induction l with
  | nil => simp [updateA]
  | cons p rest ih =>
      by_cases hp : p.1 = k
      · simp [lookupA, if_pos hp] at h
      · simp only [lookupA, if_neg hp] at h
        simp [updateA, if_neg hp, ih h]

lemma memA_updateA {α : Type} (l : List (String × α)) (k k' : String) (v : α) :
    memA (updateA l k v) k' = memA l k' := by
  by_cases hk : k' = k
  · subst hk
    cases h : lookupA l k' with
    | none => rw [updateA_of_not_mem v h]
    | some w => simp [memA, lookupA_updateA_self h, h]
  · simp [memA, lookupA_updateA_ne hk]

/-- Liveness monitor handle (a `ResettableTimer` in the source): whether its
countdown is currently armed, and an identity that is new for every timer the
program constructs (`create_timer` builds a fresh `threading.Timer`). -/
structure Monitor where
  running : Bool
  timerId : Nat
deriving DecidableEq, Repr

/-- One entry of the node table.  The source stores nodes as Python dicts with
optional keys (`direct`, `costs`, `saved`, `silence_monitor`), modelled here as
`Option` fields; `none` means the key is absent from the dict. -/
structure Node where
  cost : ECost
  route : String
  is_neighbor : Bool
  direct : Option ECost
  costs : Option (List (String × ECost))
  saved : Option ECost
  monitor : Option Monitor
deriving DecidableEq, Repr

/-- Global mutable state of the process: the `nodes` dict (a `defaultdict` in
insertion order), the own key `me` of the node, and a counter supplying fresh
timer identities. -/
structure State where
  nodes : List (String × Node)
  me : String
  gen : Nat
deriving DecidableEq, Repr

/-- Source `default_node()`: a dict holding `cost = inf`, `is_neighbor = False` and an empty `route`,
with no `direct`, `costs`, `saved` or monitor keys. -/
def default_node : Node :=
  { cost := ECost.inf, route := "", is_neighbor := false,
    direct := none, costs := none, saved := none, monitor := none }

/-- Source `create_node(...)`: fills in `direct` (default infinity) and
`costs` (default an empty `defaultdict`, whose membership test is false for
every key), and for a neighbor sets `route = addr` and starts a fresh
liveness monitor. -/
def create_node (cost : ECost) (is_nb : Bool) (dir : Option ECost)
    (cts : Option (List (String × ECost))) (addr : String) (g : Nat) : Node :=
  { cost := cost
    route := if is_nb then addr else ""
    is_neighbor := is_nb
    direct := some (dir.getD ECost.inf)
    costs := some (cts.getD [])
    saved := none
    monitor := if is_nb then some { running := true, timerId := g } else none }

/-- Source `get_neighbors()`: all table entries whose `is_neighbor` flag is
set, in table (insertion) order. -/
def get_neighbors (tbl : List (String × Node)) : List (String × Node) :=
  tbl.filter (fun p => p.2.is_neighbor)

/-- The Bellman-Ford candidate a neighbor offers for a destination:
`direct + advertised` when the vector of the neighbor contains the destination,
and infinity when it does not. -/
def candidate (n : Node) (dest : String) : ECost :=
  match lookupA (n.costs.getD []) dest with
  | none => ECost.inf
  | some adv => eadd (n.direct.getD ECost.inf) adv

/-- Body of the inner loop of `estimate_costs` for one neighbor: when the
vector of the neighbor contains the destination and its candidate beats the
running minimum, the running cost becomes the candidate — collapsed to
infinity when it exceeds 15 (`if cost > 15`) — and the running next hop
becomes that neighbor (even in the collapsed case: the source sets
`nexthop = neighbor_addr` after the cap check). -/
def step (dest a : String) (n : Node) (acc : ECost × String) : ECost × String :=
  match lookupA (n.costs.getD []) dest with
  | none => acc
  | some adv =>
    let dist := eadd (n.direct.getD ECost.inf) adv
    if elt dist acc.1 then
      (if elt (ECost.fin 15) dist then ECost.inf else dist, a)
    else acc

/-- Inner loop of `estimate_costs` over the neighbor list. -/
def scan (dest : String) : List (String × Node) → ECost × String → ECost × String
  | [], acc => acc
  | p :: rest, acc => scan dest rest (step dest p.1 p.2 acc)

/-- Result of the neighbor scan for one destination, started from
`cost = inf, nexthop = daw`. -/
def scanDest (s : State) (dest : String) : ECost × String :=
  scan dest (get_neighbors s.nodes) (ECost.inf, "")

/-- Per-entry effect of `estimate_costs`: the self entry is skipped, every
other entry gets the scanned cost and next hop. -/
def estimate_node (s : State) (a : String) (n : Node) : Node :=
  if a = s.me then n
  else { n with cost := (scanDest s a).1, route := (scanDest s a).2 }

/-- Source `estimate_costs()`: recompute cost and route of every non-self
entry from the `direct` and advertised `costs` of the current neighbors (which the
loop itself never modifies, so the iteration order is immaterial). -/
def estimate_costs (s : State) : State :=
  { s with nodes := s.nodes.map (fun p => (p.1, estimate_node s p.1 p.2)) }

/-- Reading `nodes[k]` on the `defaultdict`: returns the stored node, or
inserts (at the end, per insertion order) and returns a `default_node()`. -/
def materialize (tbl : List (String × Node)) (k : String) : Node × List (String × Node) :=
  match lookupA tbl k with
  | some n => (n, tbl)
  | none => (default_node, tbl ++ [(k, default_node)])

/-- First loop of `update_costs`: create a `default_node()` for every key of
the received vector that is not yet in the table. -/
def createAll (tbl : List (String × Node)) (cs : List (String × ECost)) :
    List (String × Node) :=
  cs.foldl (fun t p => if memA t p.1 then t else t ++ [(p.1, default_node)]) tbl

/-- Already-a-neighbor branch of `update_costs`: replace the stored
advertised vector of the sender and reset its silence monitor (a fresh timer), then run
Bellman-Ford. -/
def update_costs_refresh (s : State) (sender : String) (cs : List (String × ECost)) : State :=
  let t1 := createAll s.nodes cs
  let m := materialize t1 sender
  estimate_costs { s with
    nodes := updateA m.2 sender
      { m.1 with costs := some cs,
                 monitor := m.1.monitor.map (fun _ => { running := true, timerId := s.gen }) },
    gen := s.gen + 1 }

/-- Promotion branch of `update_costs`: `del nodes[addr]` followed by
`nodes[addr] = create_node(cost = nodes[addr].cost, ...)`.  Because the
delete precedes the keyword-argument evaluation, `nodes[addr]` re-creates a
default entry, so the cost handed to `create_node` is infinity (Bellman-Ford
immediately recomputes it afterwards); the net table effect is removal of the
old entry and a new neighbor entry at the end of the table. -/
def update_costs_promote (s : State) (sender : String) (cs : List (String × ECost))
    (dv : ECost) : State :=
  let t1 := createAll s.nodes cs
  let m := materialize t1 sender
  estimate_costs { s with
    nodes := eraseA m.2 sender ++
      [(sender, create_node ECost.inf true (some dv) (some cs) sender s.gen)],
    gen := s.gen + 1 }

/-- Source `update_costs(host, port, **kwargs)` with a well-formed payload:
materialize unknown vector keys and the sender, then refresh or promote. -/
def update_costs (s : State) (sender : String) (cs : List (String × ECost))
    (dv : ECost) : State :=
  if (materialize (createAll s.nodes cs) sender).1.is_neighbor
  then update_costs_refresh s sender cs
  else update_costs_promote s sender cs dv

/-- Source `get_node(host, port)`: the `in_network` check sets the error
flag, but `nodes[addr]` is evaluated regardless, so looking up an unknown
address inserts a default entry into the table as a side effect. -/
def get_node (s : State) (addr : String) : Node × State × Bool :=
  match lookupA s.nodes addr with
  | some n => (n, s, false)
  | none => (default_node, { s with nodes := s.nodes ++ [(addr, default_node)] }, true)

/-- Mutation `linkdown` applies to the target node: save the direct cost,
set it to infinity, clear the neighbor flag, cancel the monitor. -/
def down_node (n : Node) : Node :=
  { n with saved := some (n.direct.getD ECost.inf),
           direct := some ECost.inf,
           is_neighbor := false,
           monitor := n.monitor.map (fun m => { m with running := false }) }

/-- Mutation `linkup` applies to the target node: restore the saved direct
cost, drop the saved value, set the neighbor flag; the monitor is untouched. -/
def up_node (n : Node) (sv : ECost) : Node :=
  { n with direct := some sv, saved := none, is_neighbor := true }

/-- Source `linkdown(host, port)`. -/
def linkdown (s : State) (addr : String) : State :=
  match get_node s addr with
  | (n, s1, err) =>
    if err then s1
    else if !n.is_neighbor then s1
    else estimate_costs { s1 with nodes := updateA s1.nodes addr (down_node n) }

/-- Source `linkup(host, port)`: restores the saved direct cost and neighbor
status; it does not touch the (cancelled) silence monitor. -/
def linkup (s : State) (addr : String) : State :=
  match get_node s addr with
  | (n, s1, err) =>
    if err then s1
    else
      match n.saved with
      | none => s1
      | some sv => estimate_costs { s1 with nodes := updateA s1.nodes addr (up_node n sv) }

/-- Source `linkchange(host, port, direct)`. -/
def linkchange (s : State) (addr : String) (dcost : ECost) : State :=
  match get_node s addr with
  | (n, s1, err) =>
    if err then s1
    else if !n.is_neighbor then s1
    else if elt dcost (ECost.fin 1) then s1
    else if n.saved.isSome then s1
    else estimate_costs { s1 with nodes := updateA s1.nodes addr { n with direct := some dcost } }

/-- Snapshot `{ addr: node.cost }` of the whole table (`costs` in
`broadcast_costs`). -/
def cost_vector (tbl : List (String × Node)) : List (String × ECost) :=
  tbl.map (fun p => (p.1, p.2.cost))

/-- Poison-reversed vector built for one neighbor in `broadcast_costs`: every
destination other than self and the receiving neighbor whose current route
goes through that neighbor is overridden to infinity. -/
def broadcast_vector (s : State) (naddr : String) : List (String × ECost) :=
  (cost_vector s.nodes).map (fun q =>
    (q.1,
      if q.1 ≠ s.me ∧ q.1 ≠ naddr ∧ (lookupA s.nodes q.1).map Node.route = some naddr
      then ECost.inf else q.2))

/-- One outbound `costsupdate` datagram: receiver, poisoned vector, and the
own direct cost of the receiver (sent unpoisoned). -/
structure Packet where
  dest : String
  costs : List (String × ECost)
  direct : ECost
deriving DecidableEq, Repr

/-- Source `broadcast_costs()`: a read-only pass over the table that builds
one packet per neighbor; the state is returned unchanged. -/
def broadcast_costs (s : State) : State × List Packet :=
  (s, (get_neighbors s.nodes).map (fun p =>
    { dest := p.1, costs := broadcast_vector s p.1,
      direct := p.2.direct.getD ECost.inf }))

/-- Protocol message kind strings of the source. -/
def tLinkdown : String := "linkdown"

def tLinkup : String := "linkup"

def tLinkchange : String := "linkchange"

def tCostsupdate : String := "costsupdate"

/-- Fields a decoded JSON payload may carry: the advertised vector
(`payload.costs`), the direct cost of the sender (`payload.neighbor.direct`),
and the new link cost of a `linkchange` (`payload.direct`).  `none` models an
absent field, whose access raises `KeyError` in Python. -/
structure Payload where
  costs : Option (List (String × ECost))
  ndirect : Option ECost
  direct : Option ECost
deriving DecidableEq, Repr

/-- An inbound datagram as the receive loop sees it: either bytes that
`json.loads` rejects, or a JSON object with optional `type` and `payload`
fields. -/
inductive Datagram where
  | notJson : Datagram
  | json : Option String → Option Payload → Datagram
deriving DecidableEq, Repr

/-- The `linkchange` handler invoked with a network payload: the
`kwargs[direct]` access happens only after the error and neighbor checks, so
a missing field crashes only when the target is a known neighbor. -/
def linkchange_msg (s : State) (addr : String) (pd : Option ECost) : Except Unit State :=
  match get_node s addr with
  | (n, s1, err) =>
    if err then .ok s1
    else if !n.is_neighbor then .ok s1
    else
      match pd with
      | none => .error ()
      | some dcost => .ok (linkchange s addr dcost)

/-- The `update_costs` handler invoked with a network payload:
`kwargs[costs]` is read unconditionally, `kwargs[neighbor][direct]` only on
the promotion branch. -/
def update_costs_msg (s : State) (sender : String) (pcosts : Option (List (String × ECost)))
    (pdirect : Option ECost) : Except Unit State :=
  match pcosts with
  | none => .error ()
  | some cs =>
    if (materialize (createAll s.nodes cs) sender).1.is_neighbor
    then .ok (update_costs_refresh s sender cs)
    else
      match pdirect with
      | none => .error ()
      | some dv => .ok (update_costs_promote s sender cs dv)

/-- One iteration of the receive loop on an inbound datagram.  `Except.error`
models an uncaught Python exception (there is no try/except around the loop
body): `json.loads` failing, a missing `type` or `payload` key, or a missing
required payload field inside a handler.  An unknown `type` value is printed
and the datagram dropped. -/
def handle_datagram (s : State) (sender : String) (d : Datagram) : Except Unit State :=
  match d with
  | .notJson => .error ()
  | .json none _ => .error ()
  | .json (some _) none => .error ()
  | .json (some t) (some pl) =>
    if t = tLinkdown then .ok (linkdown s sender)
    else if t = tLinkup then .ok (linkup s sender)
    else if t = tLinkchange then linkchange_msg s sender pl.direct
    else if t = tCostsupdate then update_costs_msg s sender pl.costs pl.ndirect
    else .ok s

/-- State-mutating operations of the dispatcher, used to express reachability
from startup. -/
inductive Op where
  | update : String → List (String × ECost) → ECost → Op
  | down : String → Op
  | up : String → Op
  | change : String → ECost → Op
  | recompute : Op
  | advertise : Op
deriving DecidableEq, Repr

/-- Apply one operation to the state. -/
def applyOp (s : State) : Op → State
  | .update a cs d => update_costs s a cs d
  | .down a => linkdown s a
  | .up a => linkup s a
  | .change a c => linkchange s a c
  | .recompute => estimate_costs s
  | .advertise => (broadcast_costs s).1

/-- Apply a sequence of operations in order. -/
def runOps (s : State) : List Op → State
  | [] => s
  | op :: rest => runOps (applyOp s op) rest

/-- An operation is benign for a node when it is not a cost update whose
sender address equals the own address of the node. -/
def benignOp (me : String) : Op → Bool
  | .update a _ _ => a != me
  | _ => true

/-- The self-entry invariant of the node table, as a decidable check: the
self entry exists and has cost 0, empty route, no neighbor flag, and no
saved direct cost. -/
def selfInvB (s : State) : Bool :=
  match lookupA s.nodes s.me with
  | none => false
  | some n =>
    decide (n.cost = ECost.fin 0 ∧ n.route = "" ∧ n.is_neighbor = false ∧ n.saved = none)

/-- Decidable check that an address is currently not a neighbor (unknown
addresses count as non-neighbors, matching the promotion test of
`update_costs` on the defaultdict). -/
def notNeighborB (s : State) (k : String) : Bool :=
  match lookupA s.nodes k with
  | none => true
  | some n => !n.is_neighbor

lemma lookupA_estimate (s : State) (k : String) :
    lookupA (estimate_costs s).nodes k = (lookupA s.nodes k).map (estimate_node s k) :=
  lookupA_map_kp (estimate_node s) s.nodes k

@[simp] lemma estimate_node_me (s : State) (n : Node) : estimate_node s s.me n = n := by
  simp [estimate_node]

@[simp] lemma estimate_node_is_neighbor (s : State) (a : String) (n : Node) :
    (estimate_node s a n).is_neighbor = n.is_neighbor := by
  unfold estimate_node
  split <;> rfl

@[simp] lemma estimate_node_direct (s : State) (a : String) (n : Node) :
    (estimate_node s a n).direct = n.direct := by
  unfold estimate_node
  split <;> rfl

@[simp] lemma estimate_node_costs (s : State) (a : String) (n : Node) :
    (estimate_node s a n).costs = n.costs := by
  unfold estimate_node
  split <;> rfl

@[simp] lemma estimate_node_saved (s : State) (a : String) (n : Node) :
    (estimate_node s a n).saved = n.saved := by
  unfold estimate_node
  split <;> rfl

@[simp] lemma estimate_node_monitor (s : State) (a : String) (n : Node) :
    (estimate_node s a n).monitor = n.monitor := by
  unfold estimate_node
  split <;> rfl

/-- Full characterisation of the inner neighbor scan when it produces a
finite cost: either the accumulator already was that result and no neighbor
in the list offers anything smaller, or the list splits around a winning
neighbor whose candidate is the result, is at most 15, beats the incoming
running cost, strictly beats every earlier neighbor (first minimum wins),
and is not beaten by any later neighbor. -/
lemma scan_spec (dest : String) (q : ℤ) (r : String) :
    ∀ (l : List (String × Node)) (c0 : ECost) (r0 : String),
      scan dest l (c0, r0) = (ECost.fin q, r) →
      ((c0 = ECost.fin q ∧ r0 = r) ∧
        ∀ p ∈ l, elt (candidate p.2 dest) (ECost.fin q) = false) ∨
      (∃ pre nb post, l = pre ++ (r, nb) :: post ∧
        candidate nb dest = ECost.fin q ∧ q ≤ 15 ∧
        elt (ECost.fin q) c0 = true ∧
        (∀ p ∈ pre, elt (ECost.fin q) (candidate p.2 dest) = true) ∧
        (∀ p ∈ post, elt (candidate p.2 dest) (ECost.fin q) = false)) := by
  intro l
  induction l with
  | nil =>
      intro c0 r0 h
      rw [scan] at h
      left
      exact ⟨⟨congrArg Prod.fst h, congrArg Prod.snd h⟩, by simp⟩
  | cons hd rest ih =>
      intro c0 r0 h
      obtain ⟨a, n⟩ := hd
      rw [scan] at h
      cases hadv : lookupA (n.costs.getD []) dest with
      | none =>
          have hstep : step dest a n (c0, r0) = (c0, r0) := by simp [step, hadv]
          rw [hstep] at h
          have hcand : candidate n dest = ECost.inf := by simp [candidate, hadv]
          rcases ih c0 r0 h with ⟨⟨hc, hr⟩, hall⟩ |
            ⟨pre, nb, post, hsplit, hcq, hq15, hlt, hpre, hpost⟩
          · left
            refine ⟨⟨hc, hr⟩, ?_⟩
            intro p hp
            rcases List.mem_cons.mp hp with h1 | h1
            · subst h1
              show elt (candidate n dest) (ECost.fin q) = false
              simp [hcand]
            · exact hall p h1
          · right
            refine ⟨(a, n) :: pre, nb, post, by rw [hsplit]; rfl, hcq, hq15, hlt, ?_, hpost⟩
            intro p hp
            rcases List.mem_cons.mp hp with h1 | h1
            · subst h1
              show elt (ECost.fin q) (candidate n dest) = true
              simp [hcand]
            · exact hpre p h1
      | some adv =>
          have hcand : candidate n dest = eadd (n.direct.getD ECost.inf) adv := by
            simp [candidate, hadv]
          cases helt : elt (eadd (n.direct.getD ECost.inf) adv) c0 with
          | false =>
              have hstep : step dest a n (c0, r0) = (c0, r0) := by
                simp [step, hadv, helt]
              rw [hstep] at h
              rcases ih c0 r0 h with ⟨⟨hc, hr⟩, hall⟩ |
                ⟨pre, nb, post, hsplit, hcq, hq15, hlt, hpre, hpost⟩
              · left
                refine ⟨⟨hc, hr⟩, ?_⟩
                intro p hp
                rcases List.mem_cons.mp hp with h1 | h1
                · subst h1
                  show elt (candidate n dest) (ECost.fin q) = false
                  rw [hcand, ← hc]
                  exact helt
                · exact hall p h1
              · right
                refine ⟨(a, n) :: pre, nb, post, by rw [hsplit]; rfl, hcq, hq15, hlt, ?_, hpost⟩
                intro p hp
                rcases List.mem_cons.mp hp with h1 | h1
                · subst h1
                  show elt (ECost.fin q) (candidate n dest) = true
                  rw [hcand]
                  exact elt_of_elt_of_not_elt hlt helt
                · exact hpre p h1
          | true =>
              cases hcol : elt (ECost.fin 15) (eadd (n.direct.getD ECost.inf) adv) with
              | true =>
                  have hstep : step dest a n (c0, r0) = (ECost.inf, a) := by
                    simp [step, hadv, helt, hcol]
                  rw [hstep] at h
                  rcases ih ECost.inf a h with ⟨⟨hc, hr⟩, hall⟩ |
                    ⟨pre, nb, post, hsplit, hcq, hq15, hlt, hpre, hpost⟩
                  · exact absurd hc (by simp)
                  · right
                    have hqd : elt (ECost.fin q) (eadd (n.direct.getD ECost.inf) adv) = true :=
                      elt_fin_mono hq15 hcol
                    refine ⟨(a, n) :: pre, nb, post, by rw [hsplit]; rfl, hcq, hq15,
                      elt_trans hqd helt, ?_, hpost⟩
                    intro p hp
                    rcases List.mem_cons.mp hp with h1 | h1
                    · subst h1
                      show elt (ECost.fin q) (candidate n dest) = true
                      rw [hcand]
                      exact hqd
                    · exact hpre p h1
              | false =>
                  have hstep : step dest a n (c0, r0) =
                      (eadd (n.direct.getD ECost.inf) adv, a) := by
                    simp [step, hadv, helt, hcol]
                  rw [hstep] at h
                  rcases ih _ a h with ⟨⟨hc, hr⟩, hall⟩ |
                    ⟨pre, nb, post, hsplit, hcq, hq15, hlt, hpre, hpost⟩
                  · right
                    have hq15 : q ≤ 15 := by
                      apply le_of_not_elt15
                      rw [hc] at hcol
                      exact hcol
                    refine ⟨[], n, rest, ?_, ?_, hq15, ?_, by simp, hall⟩
                    · rw [← hr]
                      rfl
                    · rw [hcand]
                      exact hc
                    · rw [← hc]
                      exact helt
                  · right
                    refine ⟨(a, n) :: pre, nb, post, by rw [hsplit]; rfl, hcq, hq15,
                      elt_trans hlt helt, ?_, hpost⟩
                    intro p hp
                    rcases List.mem_cons.mp hp with h1 | h1
                    · subst h1
                      show elt (ECost.fin q) (candidate n dest) = true
                      rw [hcand]
                      exact hlt
                    · exact hpre p h1

/-- A scan over neighbors none of whose vectors mention the destination
leaves the accumulator untouched. -/
lemma scan_no_candidates (dest : String) :
    ∀ (l : List (String × Node)) (acc : ECost × String),
      (∀ p ∈ l, lookupA (p.2.costs.getD []) dest = none) → scan dest l acc = acc := by
  intro l
  induction l with
  | nil =>
      intro acc _
      rfl
  | cons hd rest ih =>
      intro acc hall
      rw [scan]
      have hstep : step dest hd.1 hd.2 acc = acc := by
        simp [step, hall hd (by simp)]
      rw [hstep]
      exact ih acc (fun p hp => hall p (List.mem_cons_of_mem hd hp))

/-- Looking up a non-self destination after `estimate_costs` yields exactly
the scanned cost and route. -/
lemma estimate_lookup_result (s : State) {d : String} {n' : Node}
    (hlk : lookupA (estimate_costs s).nodes d = some n') (hdm : d ≠ s.me) :
    n'.cost = (scanDest s d).1 ∧ n'.route = (scanDest s d).2 := by
  rw [lookupA_estimate] at hlk
  rcases Option.map_eq_some'.mp hlk with ⟨n, _, hen⟩
  constructor <;> (rw [← hen]; simp [estimate_node, hdm])

/-- C1: after `estimate_costs`, every non-self destination stored with a
finite cost has a stored next hop that is a current neighbor whose candidate
(direct cost plus advertised cost, infinity when the vector lacks the
destination) equals the stored cost; no current neighbor offers a strictly
smaller candidate, and every neighbor scanned before the stored next hop
offers a strictly larger candidate (first minimum wins on ties). -/
theorem C1_triangle (s : State) (hnd : (s.nodes.map Prod.fst).Nodup)
    (d : String) (n' : Node) (q : ℤ)
    (hlk : lookupA (estimate_costs s).nodes d = some n')
    (hdm : d ≠ s.me) (hfin : n'.cost = ECost.fin q) :
    ∃ nb, lookupA s.nodes n'.route = some nb ∧ nb.is_neighbor = true ∧
      candidate nb d = n'.cost ∧
      (∀ p ∈ get_neighbors s.nodes, elt (candidate p.2 d) n'.cost = false) ∧
      (∃ pre post, get_neighbors s.nodes = pre ++ (n'.route, nb) :: post ∧
        ∀ p ∈ pre, elt n'.cost (candidate p.2 d) = true) := by
  obtain ⟨hc, hr⟩ := estimate_lookup_result s hlk hdm
  have hscan : scan d (get_neighbors s.nodes) (ECost.inf, "") = (ECost.fin q, n'.route) := by
    have hpair : scanDest s d = (ECost.fin q, n'.route) := by
      rw [Prod.ext_iff]
      exact ⟨by rw [← hc, hfin], hr.symm⟩
    exact hpair
  rcases scan_spec d q n'.route (get_neighbors s.nodes) ECost.inf "" hscan with
    ⟨⟨habs, _⟩, _⟩ | ⟨pre, nb, post, hsplit, hcq, _, _, hpre, hpost⟩
  · exact absurd habs (by simp)
  · have hmem : (n'.route, nb) ∈ get_neighbors s.nodes := by
      rw [hsplit]
      simp
    have hmem2 : (n'.route, nb) ∈ s.nodes ∧ nb.is_neighbor = true := by
      have := List.mem_filter.mp hmem
      exact ⟨this.1, this.2⟩
    refine ⟨nb, lookupA_of_mem_nodup hmem2.1 hnd, hmem2.2, by rw [hcq, hfin], ?_, ?_⟩
    · intro p hp
      rw [hfin]
      rw [hsplit] at hp
      rcases List.mem_append.mp hp with h1 | h1
      · exact elt_asymm (hpre p h1)
      · rcases List.mem_cons.mp h1 with h2 | h2
        · subst h2
          simp only [hcq]
          exact elt_irrefl (ECost.fin q)
        · exact hpost p h2
    · refine ⟨pre, post, hsplit, ?_⟩
      intro p hp
      rw [hfin]
      exact hpre p hp

/-- C2 (amended): after `estimate_costs`, every finite stored cost for a
non-self destination is at most 15 — the source caps with `if cost > 15`, so
the effective metric ceiling is 15, not 16. -/
theorem C2_amended (s : State) (d : String) (n' : Node) (q : ℤ)
    (hlk : lookupA (estimate_costs s).nodes d = some n')
    (hdm : d ≠ s.me) (hfin : n'.cost = ECost.fin q) : q ≤ 15 := by
  obtain ⟨hc, hr⟩ := estimate_lookup_result s hlk hdm
  have hscan : scan d (get_neighbors s.nodes) (ECost.inf, "") = (ECost.fin q, n'.route) := by
    have hpair : scanDest s d = (ECost.fin q, n'.route) := by
      rw [Prod.ext_iff]
      exact ⟨by rw [← hc, hfin], hr.symm⟩
    exact hpair
  rcases scan_spec d q n'.route (get_neighbors s.nodes) ECost.inf "" hscan with
    ⟨⟨habs, _⟩, _⟩ | ⟨_, _, _, _, _, hq15, _, _, _⟩
  · exact absurd habs (by simp)
  · exact hq15

/-- C3 (amended, the half that holds): when no current neighbor advertises
the destination at all, `estimate_costs` stores infinite cost and an empty
route for it. -/
theorem C3_amended (s : State) (d : String) (n' : Node)
    (hlk : lookupA (estimate_costs s).nodes d = some n') (hdm : d ≠ s.me)
    (hnone : ∀ p ∈ get_neighbors s.nodes, lookupA (p.2.costs.getD []) d = none) :
    n'.cost = ECost.inf ∧ n'.route = "" := by
  obtain ⟨hc, hr⟩ := estimate_lookup_result s hlk hdm
  have hacc : scanDest s d = (ECost.inf, "") :=
    scan_no_candidates d (get_neighbors s.nodes) (ECost.inf, "") hnone
  refine ⟨?_, ?_⟩
  · rw [hc, hacc]
  · rw [hr, hacc]

/-- Node identifiers used by the concrete witness states. -/
def kM : String := "m"

def kA : String := "a"

def kB : String := "b"

def kD : String := "d"

def kX : String := "x"

def kY : String := "y"

/-- The self entry exactly as `__main__` builds it:
`create_node(cost=0.0, direct=0.0, is_neighbor=False, addr=me)`. -/
def selfNode : Node := create_node (ECost.fin 0) false (some (ECost.fin 0)) none kM 0

def n1A : Node :=
  create_node (ECost.fin 1) true (some (ECost.fin 1)) (some [(kD, ECost.fin 2)]) kA 0

def n1B : Node :=
  create_node (ECost.fin 1) true (some (ECost.fin 1)) (some [(kD, ECost.fin 2)]) kB 1

/-- Witness state for C1: two neighbors offering the same candidate 3 for
destination `d`. -/
def wS1 : State :=
  { nodes := [(kM, selfNode), (kA, n1A), (kB, n1B), (kD, default_node)], me := kM, gen := 2 }

/-- The entry `estimate_costs` stores for `d` in `wS1`. -/
def wN1 : Node := { default_node with cost := ECost.fin 3, route := kA }

theorem C1_triangle_witness :
    ((wS1.nodes.map Prod.fst).Nodup ∧ lookupA (estimate_costs wS1).nodes kD = some wN1 ∧
      kD ≠ wS1.me ∧ wN1.cost = ECost.fin 3) ∧
    (∃ nb, lookupA wS1.nodes wN1.route = some nb ∧ nb.is_neighbor = true ∧
      candidate nb kD = wN1.cost ∧
      (∀ p ∈ get_neighbors wS1.nodes, elt (candidate p.2 kD) wN1.cost = false) ∧
      (∃ pre post, get_neighbors wS1.nodes = pre ++ (wN1.route, nb) :: post ∧
        ∀ p ∈ pre, elt wN1.cost (candidate p.2 kD) = true)) :=
  ⟨⟨by decide, by decide, by decide, by decide⟩,
    C1_triangle wS1 (by decide) kD wN1 3 (by decide) (by decide) (by decide)⟩

def n2A : Node :=
  create_node (ECost.fin 1) true (some (ECost.fin 1)) (some [(kD, ECost.fin 15)]) kA 0

/-- Witness state for C2: the single neighbor offers candidate 1 + 15 = 16
for destination `d`. -/
def wS2 : State :=
  { nodes := [(kM, selfNode), (kA, n2A), (kD, default_node)], me := kM, gen := 1 }

/-- C2 (counterexample): the winning candidate 16 is not stored as the
finite value 16 — the recomputation stores infinity, because the source
collapses every cost strictly greater than 15 (not 16). -/
theorem C2_counterexample :
    (lookupA (estimate_costs wS2).nodes kD).map Node.cost = some ECost.inf ∧
    (lookupA (estimate_costs wS2).nodes kD).map Node.cost ≠ some (ECost.fin 16) := by
  decide

theorem C2_amended_witness :
    (lookupA (estimate_costs wS1).nodes kD = some wN1 ∧ kD ≠ wS1.me ∧
      wN1.cost = ECost.fin 3) ∧ (3 : ℤ) ≤ 15 :=
  ⟨⟨by decide, by decide, by decide⟩,
    C2_amended wS1 kD wN1 3 (by decide) (by decide) (by decide)⟩

def n3A : Node :=
  create_node (ECost.fin 1) true (some (ECost.fin 1)) (some [(kD, ECost.fin 20)]) kA 0

/-- Witness state for the C3 counterexample: the only neighbor offers
candidate 21 for `d`, which collapses to infinity. -/
def wS3 : State :=
  { nodes := [(kM, selfNode), (kA, n3A), (kD, default_node)], me := kM, gen := 1 }

/-- C3 (counterexample): after recomputation the destination `d` has
infinite cost but a non-empty route — the source sets
`nexthop = neighbor_addr` even when the candidate collapses to infinity, so
an unreachable destination can keep a stale next hop. -/
theorem C3_counterexample :
    (lookupA (estimate_costs wS3).nodes kD).map (fun n => (n.cost, n.route)) =
      some (ECost.inf, kA) ∧ kA ≠ "" := by
  decide

def n3bA : Node := create_node (ECost.fin 1) true (some (ECost.fin 1)) (some []) kA 0

/-- Witness state for the amended C3: the neighbor advertises nothing for
`d`. -/
def wS3b : State :=
  { nodes := [(kM, selfNode), (kA, n3bA), (kD, default_node)], me := kM, gen := 1 }

theorem C3_amended_witness :
    (lookupA (estimate_costs wS3b).nodes kD = some default_node ∧ kD ≠ wS3b.me ∧
      (∀ p ∈ get_neighbors wS3b.nodes, lookupA (p.2.costs.getD []) kD = none)) ∧
    (default_node.cost = ECost.inf ∧ default_node.route = "") :=
  ⟨⟨by decide, by decide, by decide⟩,
    C3_amended wS3b kD default_node (by decide) (by decide) (by decide)⟩

/-- C4: the advertisement built for neighbor `N` carries infinity for every
destination other than self and `N` whose stored route goes through `N`, and
the true stored cost for every other destination (in particular for any
receiver the destination is not routed through); every packet carries the
direct cost of its receiver unpoisoned, and building advertisements returns
the state unchanged (no recomputation, no table mutation). -/
theorem C4_poison (s : State) (N d : String) (n nb : Node) :
    (broadcast_costs s).1 = s ∧
    (lookupA s.nodes d = some n → d ≠ s.me → d ≠ N → n.route = N →
      lookupA (broadcast_vector s N) d = some ECost.inf) ∧
    (lookupA s.nodes d = some n → (d = s.me ∨ d = N ∨ n.route ≠ N) →
      lookupA (broadcast_vector s N) d = some n.cost) ∧
    ((N, nb) ∈ get_neighbors s.nodes →
      ({ dest := N, costs := broadcast_vector s N,
         direct := nb.direct.getD ECost.inf } : Packet) ∈ (broadcast_costs s).2) := by
  have h1 : lookupA (cost_vector s.nodes) d = (lookupA s.nodes d).map Node.cost := by
    unfold cost_vector
    exact lookupA_map_kp (fun _ v => v.cost) s.nodes d
  have h2 : lookupA (broadcast_vector s N) d =
      (lookupA (cost_vector s.nodes) d).map (fun c =>
        if d ≠ s.me ∧ d ≠ N ∧ (lookupA s.nodes d).map Node.route = some N
        then ECost.inf else c) := by
    unfold broadcast_vector
    exact lookupA_map_kp
      (fun k c =>
        if k ≠ s.me ∧ k ≠ N ∧ (lookupA s.nodes k).map Node.route = some N
        then ECost.inf else c)
      (cost_vector s.nodes) d
  refine ⟨rfl, ?_, ?_, ?_⟩
  · intro hlk hme hN hroute
    rw [h2, h1, hlk]
    simp [hme, hN, hroute]
  · intro hlk hdisj
    rw [h2, h1, hlk]
    rcases hdisj with h | h | h <;> simp [h]
  · intro hmem
    exact List.mem_map_of_mem _ hmem

def n4A : Node :=
  create_node (ECost.fin 1) true (some (ECost.fin 1)) (some [(kD, ECost.fin 2)]) kA 0

def n4B : Node := create_node (ECost.fin 5) true (some (ECost.fin 5)) (some []) kB 1

/-- Entry for `d` in the C4 witness state: routed through neighbor `a`. -/
def wN4d : Node := { default_node with cost := ECost.fin 3, route := kA }

/-- Witness state for C4: destination `d` costs 3 via neighbor `a`; `b` is a
second neighbor. -/
def wS4 : State :=
  { nodes := [(kM, selfNode), (kA, n4A), (kB, n4B), (kD, wN4d)], me := kM, gen := 2 }

theorem C4_poison_witness :
    (lookupA wS4.nodes kD = some wN4d ∧ kD ≠ wS4.me ∧ kD ≠ kA ∧ wN4d.route = kA ∧
      wN4d.route ≠ kB ∧ (kA, n4A) ∈ get_neighbors wS4.nodes) ∧
    ((broadcast_costs wS4).1 = wS4 ∧
      lookupA (broadcast_vector wS4 kA) kD = some ECost.inf ∧
      lookupA (broadcast_vector wS4 kB) kD = some wN4d.cost ∧
      ({ dest := kA, costs := broadcast_vector wS4 kA,
         direct := n4A.direct.getD ECost.inf } : Packet) ∈ (broadcast_costs wS4).2) :=
  ⟨⟨by decide, by decide, by decide, by decide, by decide, by decide⟩,
   ⟨(C4_poison wS4 kA kD wN4d n4A).1,
    (C4_poison wS4 kA kD wN4d n4A).2.1 (by decide) (by decide) (by decide) (by decide),
    (C4_poison wS4 kB kD wN4d n4A).2.2.1 (by decide) (Or.inr (Or.inr (by decide))),
    (C4_poison wS4 kA kD wN4d n4A).2.2.2 (by decide)⟩⟩

/-- C5 (amended): `linkdown(A)` followed by `linkup(A)` restores the direct
cost bit-for-bit, removes the saved cost and restores neighbor status, but
does not start a fresh liveness monitor: the node keeps the monitor object
that `linkdown` cancelled, with its countdown not running. -/
theorem C5_amended (s : State) (A : String) (n : Node) (c : ECost)
    (hlk : lookupA s.nodes A = some n) (hnb : n.is_neighbor = true)
    (hdc : n.direct = some c) :
    ∃ n', lookupA (linkup (linkdown s A) A).nodes A = some n' ∧
      n'.direct = some c ∧ n'.saved = none ∧ n'.is_neighbor = true ∧
      n'.monitor = n.monitor.map (fun m => { m with running := false }) := by
  have hget : get_node s A = (n, s, false) := by simp [get_node, hlk]
  set sd : State := { s with nodes := updateA s.nodes A (down_node n) } with hsd
  have hdown : linkdown s A = estimate_costs sd := by
    simp [linkdown, hget, hnb, hsd]
  set n2 : Node := estimate_node sd A (down_node n) with hn2
  have hmid : lookupA (linkdown s A).nodes A = some n2 := by
    rw [hdown, lookupA_estimate]
    rw [show sd.nodes = updateA s.nodes A (down_node n) from by rw [hsd]]
    rw [lookupA_updateA_self hlk]
    rw [hn2]
    rfl
  have hsv2 : n2.saved = some c := by
    rw [hn2, estimate_node_saved]
    simp [down_node, hdc]
  have hget2 : get_node (linkdown s A) A = (n2, linkdown s A, false) := by
    simp [get_node, hmid]
  set su : State :=
    { linkdown s A with nodes := updateA (linkdown s A).nodes A (up_node n2 c) } with hsu
  have hup : linkup (linkdown s A) A = estimate_costs su := by
    simp [linkup, hget2, hsv2, hsu]
  refine ⟨estimate_node su A (up_node n2 c), ?_, ?_, ?_, ?_, ?_⟩
  · rw [hup, lookupA_estimate]
    rw [show su.nodes = updateA (linkdown s A).nodes A (up_node n2 c) from by rw [hsu]]
    rw [lookupA_updateA_self hmid]
    rfl
  · rw [estimate_node_direct]
    simp [up_node]
  · rw [estimate_node_saved]
    simp [up_node]
  · rw [estimate_node_is_neighbor]
    simp [up_node]
  · rw [estimate_node_monitor]
    rw [show (up_node n2 c).monitor = n2.monitor from rfl]
    rw [hn2, estimate_node_monitor]
    simp [down_node]

def n5A : Node := create_node (ECost.fin 1) true (some (ECost.fin 1)) (some []) kA 0

/-- Witness state for C5: one neighbor `a` with direct cost 1 and a running
monitor. -/
def wS5 : State := { nodes := [(kM, selfNode), (kA, n5A)], me := kM, gen := 1 }

/-- C5 (counterexample): after `linkdown(a)` then `linkup(a)` the direct cost
is restored, the saved cost removed, and neighbor status restored, but the
liveness monitor of `a` is the old cancelled one — `running = false` and the
same timer identity — not a fresh, running monitor. -/
theorem C5_counterexample :
    (lookupA (linkup (linkdown wS5 kA) kA).nodes kA).map
        (fun n => (n.direct, n.saved, n.is_neighbor, n.monitor)) =
      some (some (ECost.fin 1), none, true,
        some { running := false, timerId := 0 }) := by
  decide

theorem C5_amended_witness :
    (lookupA wS5.nodes kA = some n5A ∧ n5A.is_neighbor = true ∧
      n5A.direct = some (ECost.fin 1)) ∧
    (∃ n', lookupA (linkup (linkdown wS5 kA) kA).nodes kA = some n' ∧
      n'.direct = some (ECost.fin 1) ∧ n'.saved = none ∧ n'.is_neighbor = true ∧
      n'.monitor = n5A.monitor.map (fun m => { m with running := false })) :=
  ⟨⟨by decide, by decide, by decide⟩,
    C5_amended wS5 kA n5A (ECost.fin 1) (by decide) (by decide) (by decide)⟩

/-- Empty-table-but-self witness state for C7. -/
def wS7 : State := { nodes := [(kM, selfNode)], me := kM, gen := 0 }

/-- C7 (counterexample): a non-JSON datagram, and a `costsupdate` whose
payload lacks the `costs` field, both raise an uncaught exception (the
receive loop has no try/except), terminating the process rather than being
reported and dropped. -/
theorem C7_counterexample :
    handle_datagram wS7 kX Datagram.notJson = Except.error () ∧
    handle_datagram wS7 kX
      (Datagram.json (some tCostsupdate)
        (some { costs := none, ndirect := none, direct := none })) = Except.error () :=
  ⟨rfl, rfl⟩

/-- C7 (amended): only a well-formed JSON envelope with an unknown message
kind is reported and dropped with the table unchanged; a non-JSON datagram,
a missing `type` field, or a missing `payload` field raises an uncaught
exception that terminates the receive loop. -/
theorem C7_amended (s : State) (sender t : String) (pl : Payload) (p2 : Option Payload)
    (h1 : t ≠ tLinkdown) (h2 : t ≠ tLinkup) (h3 : t ≠ tLinkchange) (h4 : t ≠ tCostsupdate) :
    handle_datagram s sender (Datagram.json (some t) (some pl)) = Except.ok s ∧
    handle_datagram s sender Datagram.notJson = Except.error () ∧
    handle_datagram s sender (Datagram.json none p2) = Except.error () ∧
    handle_datagram s sender (Datagram.json (some t) none) = Except.error () := by
  refine ⟨?_, rfl, ?_, rfl⟩
  · simp [handle_datagram, h1, h2, h3, h4]
  · cases p2 <;> rfl

theorem C7_amended_witness :
    (kY ≠ tLinkdown ∧ kY ≠ tLinkup ∧ kY ≠ tLinkchange ∧ kY ≠ tCostsupdate) ∧
    (handle_datagram wS7 kX
        (Datagram.json (some kY)
          (some { costs := none, ndirect := none, direct := none })) = Except.ok wS7 ∧
      handle_datagram wS7 kX Datagram.notJson = Except.error () ∧
      handle_datagram wS7 kX (Datagram.json none none) = Except.error () ∧
      handle_datagram wS7 kX (Datagram.json (some kY) none) = Except.error ()) :=
  ⟨⟨by decide, by decide, by decide, by decide⟩,
    C7_amended wS7 kX kY { costs := none, ndirect := none, direct := none } none
      (by decide) (by decide) (by decide) (by decide)⟩

/-- Witness state for the C8 counterexample: the table knows only self. -/
def wS8 : State := { nodes := [(kM, selfNode)], me := kM, gen := 0 }

/-- C8 (counterexample): a link operation on an unknown address is not a
no-op — `get_node` evaluates `nodes[addr]` on the defaultdict even when
`in_network` already failed, so a default entry for the unknown target is
created in the table. -/
theorem C8_counterexample :
    memA wS8.nodes kX = false ∧
    memA (linkchange wS8 kX (ECost.fin 5)).nodes kX = true ∧
    (linkchange wS8 kX (ECost.fin 5)).nodes ≠ wS8.nodes := by
  decide

/-- C8 (amended): for a known target address, every violated precondition
(not a neighbor, cost below 1, link currently down, no saved cost to
restore) leaves the state exactly unchanged; for an unknown target address
the operation reports the error and changes no existing entry, but appends a
fresh default entry for the target as a side effect of the table lookup. -/
theorem C8_amended (s : State) (a : String) (c : ECost) :
    (∀ n, lookupA s.nodes a = some n → n.is_neighbor = false →
      linkdown s a = s ∧ linkchange s a c = s) ∧
    (∀ n, lookupA s.nodes a = some n → n.saved = none → linkup s a = s) ∧
    (∀ n, lookupA s.nodes a = some n → n.is_neighbor = true →
      elt c (ECost.fin 1) = true → linkchange s a c = s) ∧
    (∀ n, lookupA s.nodes a = some n → n.is_neighbor = true → n.saved.isSome = true →
      linkchange s a c = s) ∧
    (lookupA s.nodes a = none →
      linkdown s a = { s with nodes := s.nodes ++ [(a, default_node)] } ∧
      linkup s a = { s with nodes := s.nodes ++ [(a, default_node)] } ∧
      linkchange s a c = { s with nodes := s.nodes ++ [(a, default_node)] }) := by
  refine ⟨?_, ?_, ?_, ?_, ?_⟩
  · intro n hlk hnb
    have hget : get_node s a = (n, s, false) := by simp [get_node, hlk]
    exact ⟨by simp [linkdown, hget, hnb], by simp [linkchange, hget, hnb]⟩
  · intro n hlk hsv
    have hget : get_node s a = (n, s, false) := by simp [get_node, hlk]
    simp [linkup, hget, hsv]
  · intro n hlk hnb hc
    have hget : get_node s a = (n, s, false) := by simp [get_node, hlk]
    simp [linkchange, hget, hnb, hc]
  · intro n hlk hnb hsv
    have hget : get_node s a = (n, s, false) := by simp [get_node, hlk]
    by_cases hc : elt c (ECost.fin 1) = true
    · simp [linkchange, hget, hnb, hc]
    · simp [linkchange, hget, hnb, hc, hsv]
  · intro hnone
    have hget : get_node s a =
        (default_node, { s with nodes := s.nodes ++ [(a, default_node)] }, true) := by
      simp [get_node, hnone]
    exact ⟨by simp [linkdown, hget], by simp [linkup, hget], by simp [linkchange, hget]⟩

def n8A : Node := create_node (ECost.fin 2) true (some (ECost.fin 2)) (some []) kA 0

/-- Witness state for the amended C8: a neighbor `a`, a known non-neighbor
`b`, and no entry for `x`. -/
def wS8b : State :=
  { nodes := [(kM, selfNode), (kA, n8A), (kB, default_node)], me := kM, gen := 1 }

theorem C8_amended_witness :
    (lookupA wS8b.nodes kB = some default_node ∧ default_node.is_neighbor = false ∧
      default_node.saved = none ∧ lookupA wS8b.nodes kA = some n8A ∧
      n8A.is_neighbor = true ∧ elt (ECost.fin 0) (ECost.fin 1) = true ∧
      lookupA wS8b.nodes kX = none) ∧
    (linkdown wS8b kB = wS8b ∧ linkchange wS8b kB (ECost.fin 0) = wS8b ∧
      linkup wS8b kB = wS8b ∧ linkchange wS8b kA (ECost.fin 0) = wS8b ∧
      linkchange wS8b kX (ECost.fin 0) =
        { wS8b with nodes := wS8b.nodes ++ [(kX, default_node)] }) :=
  ⟨⟨by decide, by decide, by decide, by decide, by decide, by decide, by decide⟩,
   ⟨((C8_amended wS8b kB (ECost.fin 0)).1 default_node (by decide) (by decide)).1,
    ((C8_amended wS8b kB (ECost.fin 0)).1 default_node (by decide) (by decide)).2,
    (C8_amended wS8b kB (ECost.fin 0)).2.1 default_node (by decide) (by decide),
    (C8_amended wS8b kA (ECost.fin 0)).2.2.1 n8A (by decide) (by decide) (by decide),
    ((C8_amended wS8b kX (ECost.fin 0)).2.2.2.2 (by decide)).2.2⟩⟩

lemma memA_of_lookupA_some {α : Type} {l : List (String × α)} {k : String} {v : α}
    (h : lookupA l k = some v) : memA l k = true := by
  simp [memA, h]

lemma lookupA_eq_none_of_memA_false {α : Type} {l : List (String × α)} {k : String}
    (h : memA l k = false) : lookupA l k = none := by
  cases hl : lookupA l k with
  | none => rfl
  | some v =>
      rw [memA, hl] at h
      simp at h

lemma createAll_cons (l : List (String × Node)) (p : String × ECost)
    (rest : List (String × ECost)) :
    createAll l (p :: rest) =
      createAll (if memA l p.1 then l else l ++ [(p.1, default_node)]) rest := rfl

lemma createAll_lookup_some (cs : List (String × ECost)) {l : List (String × Node)}
    {k : String} {v : Node} (h : lookupA l k = some v) :
    lookupA (createAll l cs) k = some v := by
  induction cs generalizing l with
  | nil => exact h
  | cons p rest ih =>
      rw [createAll_cons]
      by_cases hm : memA l p.1 = true
      · rw [if_pos hm]
        exact ih h
      · rw [if_neg hm]
        exact ih (lookupA_append_some h)

lemma createAll_lookup_weak (cs : List (String × ECost)) {l : List (String × Node)}
    {k : String}
    (h : lookupA l k = none ∨ lookupA l k = some default_node) :
    lookupA (createAll l cs) k = none ∨ lookupA (createAll l cs) k = some default_node := by
  induction cs generalizing l with
  | nil => exact h
  | cons p rest ih =>
      rw [createAll_cons]
      by_cases hm : memA l p.1 = true
      · rw [if_pos hm]
        exact ih h
      · rw [if_neg hm]
        apply ih
        rcases h with h | h
        · by_cases hk : p.1 = k
          · right
            rw [lookupA_append_none h]
            simp [lookupA, hk]
          · left
            rw [lookupA_append_none h]
            simp [lookupA, hk]
        · right
          exact lookupA_append_some h

lemma createAll_mem_preserve (cs : List (String × ECost)) {l : List (String × Node)}
    {k : String} (h : memA l k = true) : memA (createAll l cs) k = true := by
  rcases Option.isSome_iff_exists.mp (by simpa [memA] using h) with ⟨v, hv⟩
  exact memA_of_lookupA_some (createAll_lookup_some cs hv)

lemma createAll_mem_all (cs : List (String × ECost)) :
    ∀ (l : List (String × Node)), ∀ p ∈ cs, memA (createAll l cs) p.1 = true := by
  induction cs with
  | nil =>
      intro l p hp
      simp at hp
  | cons q rest ih =>
      intro l p hp
      rw [createAll_cons]
      rcases List.mem_cons.mp hp with h | h
      · subst h
        apply createAll_mem_preserve
        by_cases hm : memA l p.1 = true
        · rw [if_pos hm]
          exact hm
        · rw [if_neg hm]
          have hnone : lookupA l p.1 = none :=
            lookupA_eq_none_of_memA_false (by simpa using hm)
          rw [memA, lookupA_append_none hnone]
          simp [lookupA]
      · exact ih _ p h

lemma materialize_of_some {t : List (String × Node)} {k : String} {n : Node}
    (h : lookupA t k = some n) : materialize t k = (n, t) := by
  simp [materialize, h]

lemma materialize_mem_self (t : List (String × Node)) (k : String) :
    memA (materialize t k).2 k = true := by
  cases hl : lookupA t k with
  | some n => simp [materialize, hl, memA]
  | none =>
      simp only [materialize, hl, memA]
      rw [lookupA_append_none hl]
      simp [lookupA]

lemma materialize_mem_preserve {t : List (String × Node)} {k x : String}
    (h : memA t k = true) : memA (materialize t x).2 k = true := by
  cases hl : lookupA t x with
  | some n => simpa [materialize, hl] using h
  | none => simp [materialize, hl, memA_append, h]

lemma nodup_keys_append_new {α : Type} {l : List (String × α)} {k : String} (v : α)
    (hnd : (l.map Prod.fst).Nodup) (h : lookupA l k = none) :
    ((l ++ [(k, v)]).map Prod.fst).Nodup := by
  rw [List.map_append, List.nodup_append]
  refine ⟨hnd, List.nodup_singleton _, ?_⟩
  intro x hx hy
  simp at hy
  subst hy
  exact (lookupA_eq_none_iff.mp h) hx

lemma nodup_keys_createAll (cs : List (String × ECost)) {l : List (String × Node)}
    (hnd : (l.map Prod.fst).Nodup) : ((createAll l cs).map Prod.fst).Nodup := by
  induction cs generalizing l with
  | nil => exact hnd
  | cons p rest ih =>
      rw [createAll_cons]
      by_cases hm : memA l p.1 = true
      · rw [if_pos hm]
        exact ih hnd
      · rw [if_neg hm]
        exact ih
          (nodup_keys_append_new _ hnd (lookupA_eq_none_of_memA_false (by simpa using hm)))

lemma nodup_keys_materialize (k : String) {t : List (String × Node)}
    (hnd : (t.map Prod.fst).Nodup) : (((materialize t k).2).map Prod.fst).Nodup := by
  cases hl : lookupA t k with
  | some n => simpa [materialize, hl] using hnd
  | none => simpa [materialize, hl] using nodup_keys_append_new default_node hnd hl

lemma memA_estimate (s2 : State) (k : String) :
    memA (estimate_costs s2).nodes k = memA s2.nodes k := by
  rw [memA, lookupA_estimate, memA]
  cases lookupA s2.nodes k <;> rfl

/-- Promotion test of `update_costs` evaluates to false when the sender is
unknown or known as a non-neighbor. -/
lemma notNeighbor_materialize (s : State) (X : String) (cs : List (String × ECost))
    (h : notNeighborB s X = true) :
    (materialize (createAll s.nodes cs) X).1.is_neighbor = false := by
  unfold notNeighborB at h
  cases hl : lookupA s.nodes X with
  | none =>
      rcases createAll_lookup_weak cs (Or.inl hl) with h2 | h2
      · simp [materialize, h2, default_node]
      · simp [materialize, h2, default_node]
  | some n =>
      rw [hl] at h
      have hn : n.is_neighbor = false := by simpa using h
      simp [materialize, createAll_lookup_some cs hl, hn]

lemma update_costs_split (s : State) (X : String) (cs : List (String × ECost)) (d : ECost) :
    update_costs s X cs d =
      (if (materialize (createAll s.nodes cs) X).1.is_neighbor
       then update_costs_refresh s X cs
       else update_costs_promote s X cs d) := rfl

/-- Table shape after the promotion branch: the sender entry moves to the end
of the table as a fresh neighbor entry, then Bellman-Ford runs. -/
lemma promote_lookup (s : State) (X : String) (cs : List (String × ECost)) (d : ECost)
    (hnd : (s.nodes.map Prod.fst).Nodup)
    (hcond : (materialize (createAll s.nodes cs) X).1.is_neighbor = false) :
    ∃ s2, update_costs s X cs d = estimate_costs s2 ∧
      lookupA (update_costs s X cs d).nodes X =
        some (estimate_node s2 X (create_node ECost.inf true (some d) (some cs) X s.gen)) := by
  have heq : update_costs s X cs d = update_costs_promote s X cs d := by
    rw [update_costs_split, hcond]
    rfl
  have hbody : update_costs_promote s X cs d = estimate_costs { s with
      nodes := eraseA (materialize (createAll s.nodes cs) X).2 X ++ [(X, create_node ECost.inf true (some d) (some cs) X s.gen)],
      gen := s.gen + 1 } := rfl
  refine ⟨_, heq.trans hbody, ?_⟩
  rw [heq, hbody, lookupA_estimate]
  have hnd2 : ((materialize (createAll s.nodes cs) X).2.map Prod.fst).Nodup :=
    nodup_keys_materialize X (nodup_keys_createAll cs hnd)
  rw [show ({ s with
      nodes := eraseA (materialize (createAll s.nodes cs) X).2 X ++ [(X, create_node ECost.inf true (some d) (some cs) X s.gen)],
      gen := s.gen + 1 } : State).nodes = eraseA (materialize (createAll s.nodes cs) X).2 X ++ [(X, create_node ECost.inf true (some d) (some cs) X s.gen)] from rfl]
  rw [lookupA_eraseA_append _ hnd2]
  rfl

/-- Table shape after the refresh branch: the existing neighbor entry is
replaced in place with the new vector and a reset monitor, then Bellman-Ford
runs. -/
lemma refresh_lookup (s : State) (X : String) (cs : List (String × ECost)) (d : ECost)
    {n : Node} (hlk : lookupA s.nodes X = some n) (hnb : n.is_neighbor = true) :
    ∃ s2, update_costs s X cs d = estimate_costs s2 ∧
      lookupA (update_costs s X cs d).nodes X =
        some (estimate_node s2 X
          { n with
            costs := some cs,
            monitor := n.monitor.map (fun _ => { running := true, timerId := s.gen }) }) := by
  have hca : lookupA (createAll s.nodes cs) X = some n := createAll_lookup_some cs hlk
  have hm : materialize (createAll s.nodes cs) X = (n, createAll s.nodes cs) :=
    materialize_of_some hca
  have heq : update_costs s X cs d = update_costs_refresh s X cs := by
    rw [update_costs_split, hm, hnb]
    rfl
  have hbody : update_costs_refresh s X cs = estimate_costs { s with
      nodes := updateA (createAll s.nodes cs) X { n with costs := some cs, monitor := n.monitor.map (fun _ => { running := true, timerId := s.gen }) },
      gen := s.gen + 1 } := by
    rw [update_costs_refresh, hm]
  refine ⟨_, heq.trans hbody, ?_⟩
  rw [heq, hbody, lookupA_estimate]
  rw [show ({ s with
      nodes := updateA (createAll s.nodes cs) X { n with costs := some cs, monitor := n.monitor.map (fun _ => { running := true, timerId := s.gen }) },
      gen := s.gen + 1 } : State).nodes = updateA (createAll s.nodes cs) X { n with costs := some cs, monitor := n.monitor.map (fun _ => { running := true, timerId := s.gen }) } from rfl]
  rw [lookupA_updateA_self hca]
  rfl

lemma update_costs_mem (s : State) (X : String) (cs : List (String × ECost)) (d : ECost)
    (k : String)
    (h : memA (materialize (createAll s.nodes cs) X).2 k = true ∨ k = X) :
    memA (update_costs s X cs d).nodes k = true := by
  rw [update_costs_split]
  by_cases hcond : (materialize (createAll s.nodes cs) X).1.is_neighbor = true
  · rw [if_pos hcond]
    have hb : update_costs_refresh s X cs = estimate_costs { s with
        nodes := updateA (materialize (createAll s.nodes cs) X).2 X { (materialize (createAll s.nodes cs) X).1 with costs := some cs, monitor := (materialize (createAll s.nodes cs) X).1.monitor.map (fun _ => { running := true, timerId := s.gen }) },
        gen := s.gen + 1 } := rfl
    rw [hb, memA_estimate]
    show memA (updateA (materialize (createAll s.nodes cs) X).2 X { (materialize (createAll s.nodes cs) X).1 with costs := some cs, monitor := (materialize (createAll s.nodes cs) X).1.monitor.map (fun _ => { running := true, timerId := s.gen }) }) k = true
    rw [memA_updateA]
    rcases h with h | h
    · exact h
    · subst h
      exact materialize_mem_self _ k
  · rw [if_neg hcond]
    have hb : update_costs_promote s X cs d = estimate_costs { s with
        nodes := eraseA (materialize (createAll s.nodes cs) X).2 X ++ [(X, create_node ECost.inf true (some d) (some cs) X s.gen)],
        gen := s.gen + 1 } := rfl
    rw [hb, memA_estimate]
    show memA (eraseA (materialize (createAll s.nodes cs) X).2 X ++ [(X, create_node ECost.inf true (some d) (some cs) X s.gen)]) k = true
    rw [memA_append]
    by_cases hk : k = X
    · subst hk
      simp [memA, lookupA]
    · rcases h with h | h
      · have hrw : memA (eraseA (materialize (createAll s.nodes cs) X).2 X) k =
            memA (materialize (createAll s.nodes cs) X).2 k := by
          rw [memA, memA, lookupA_eraseA_ne hk]
        rw [hrw, h]
        simp
      · exact absurd h hk

/-- C6: applying a cost-update from sender `X` materializes a Node Table
entry for `X` and for every destination named in the carried vector; if `X`
was not previously a neighbor (unknown or known non-neighbor) it is promoted
to neighbor with the supplied direct cost, the supplied vector as advertised
costs, and a freshly started liveness monitor; if `X` was already a neighbor
its advertised costs are replaced with the supplied vector and its monitor
is reset to a fresh running timer, all other fields unchanged; in both cases
the result is a recomputation (`estimate_costs`) of the mutated table. -/
theorem C6_update (s : State) (X : String) (cs : List (String × ECost)) (d : ECost)
    (hnd : (s.nodes.map Prod.fst).Nodup) :
    (memA (update_costs s X cs d).nodes X = true ∧
      ∀ p ∈ cs, memA (update_costs s X cs d).nodes p.1 = true) ∧
    (notNeighborB s X = true →
      ∃ n', lookupA (update_costs s X cs d).nodes X = some n' ∧
        n'.is_neighbor = true ∧ n'.direct = some d ∧ n'.costs = some cs ∧
        n'.monitor = some { running := true, timerId := s.gen }) ∧
    (∀ n, lookupA s.nodes X = some n → n.is_neighbor = true →
      ∃ n', lookupA (update_costs s X cs d).nodes X = some n' ∧
        n'.is_neighbor = true ∧ n'.costs = some cs ∧ n'.direct = n.direct ∧
        n'.saved = n.saved ∧
        n'.monitor = n.monitor.map (fun _ => { running := true, timerId := s.gen })) ∧
    (∃ s2, update_costs s X cs d = estimate_costs s2) := by
  refine ⟨⟨?_, ?_⟩, ?_, ?_, ?_⟩
  · exact update_costs_mem s X cs d X (Or.inr rfl)
  · intro p hp
    exact update_costs_mem s X cs d p.1
      (Or.inl (materialize_mem_preserve (createAll_mem_all cs s.nodes p hp)))
  · intro hnn
    obtain ⟨s2, _, hlk⟩ := promote_lookup s X cs d hnd (notNeighbor_materialize s X cs hnn)
    refine ⟨_, hlk, ?_, ?_, ?_, ?_⟩
    · rw [estimate_node_is_neighbor]
      simp [create_node]
    · rw [estimate_node_direct]
      simp [create_node]
    · rw [estimate_node_costs]
      simp [create_node]
    · rw [estimate_node_monitor]
      simp [create_node]
  · intro n hlkX hnb
    obtain ⟨s2, _, hlk⟩ := refresh_lookup s X cs d hlkX hnb
    refine ⟨_, hlk, ?_, ?_, ?_, ?_, ?_⟩
    · rw [estimate_node_is_neighbor]
      exact hnb
    · rw [estimate_node_costs]
    · rw [estimate_node_direct]
    · rw [estimate_node_saved]
    · rw [estimate_node_monitor]
  · by_cases hcond : (materialize (createAll s.nodes cs) X).1.is_neighbor = true
    ·exact ⟨_, by rw [update_costs_split, if_pos hcond]; rfl⟩
    · exact ⟨_, by rw [update_costs_split, if_neg hcond]; rfl⟩

def csW6 : List (String × ECost) := [(kY, ECost.fin 2)]

def dW6 : ECost := ECost.fin 4

/-- Witness state for C6: the table knows only self; `x` has never been
seen. -/
def wS6 : State := { nodes := [(kM, selfNode)], me := kM, gen := 0 }

theorem C6_update_witness :
    ((wS6.nodes.map Prod.fst).Nodup) ∧
    ((memA (update_costs wS6 kX csW6 dW6).nodes kX = true ∧
        ∀ p ∈ csW6, memA (update_costs wS6 kX csW6 dW6).nodes p.1 = true) ∧
      (notNeighborB wS6 kX = true →
        ∃ n', lookupA (update_costs wS6 kX csW6 dW6).nodes kX = some n' ∧
          n'.is_neighbor = true ∧ n'.direct = some dW6 ∧ n'.costs = some csW6 ∧
          n'.monitor = some { running := true, timerId := wS6.gen }) ∧
      (∀ n, lookupA wS6.nodes kX = some n → n.is_neighbor = true →
        ∃ n', lookupA (update_costs wS6 kX csW6 dW6).nodes kX = some n' ∧
          n'.is_neighbor = true ∧ n'.costs = some csW6 ∧ n'.direct = n.direct ∧
          n'.saved = n.saved ∧
          n'.monitor = n.monitor.map (fun _ => { running := true, timerId := wS6.gen })) ∧
      (∃ s2, update_costs wS6 kX csW6 dW6 = estimate_costs s2)) :=
  ⟨by decide, C6_update wS6 kX csW6 dW6 (by decide)⟩

/-- C10: when an administratively downed node (saved cost present, neighbor
flag cleared) sends a cost update, it is re-promoted to neighbor with the
claimed direct cost and the saved pre-down cost is discarded (the new entry
has no `saved` key), so a subsequent `linkup` on the address reports an
error and is a no-op instead of restoring the pre-down direct cost. -/
theorem C10_promote_discards_saved (s : State) (X : String) (cs : List (String × ECost))
    (d c : ECost) (n : Node) (hnd : (s.nodes.map Prod.fst).Nodup)
    (hlk : lookupA s.nodes X = some n) (hnb : n.is_neighbor = false)
    (hsv : n.saved = some c) :
    ∃ n', lookupA (update_costs s X cs d).nodes X = some n' ∧
      n'.is_neighbor = true ∧ n'.direct = some d ∧ n'.saved = none ∧
      linkup (update_costs s X cs d) X = update_costs s X cs d := by
  have hcond : (materialize (createAll s.nodes cs) X).1.is_neighbor = false := by
    simp [materialize, createAll_lookup_some cs hlk, hnb]
  obtain ⟨s2, _, hlkX⟩ := promote_lookup s X cs d hnd hcond
  have hsaved : (estimate_node s2 X
      (create_node ECost.inf true (some d) (some cs) X s.gen)).saved = none := by
    rw [estimate_node_saved]
    simp [create_node]
  refine ⟨_, hlkX, ?_, ?_, hsaved, ?_⟩
  · rw [estimate_node_is_neighbor]
    simp [create_node]
  · rw [estimate_node_direct]
    simp [create_node]
  · have hget : get_node (update_costs s X cs d) X =
        (estimate_node s2 X (create_node ECost.inf true (some d) (some cs) X s.gen),
         update_costs s X cs d, false) := by
      simp [get_node, hlkX]
    simp [linkup, hget, create_node]

def nDownA : Node :=
  { cost := ECost.inf, route := "", is_neighbor := false,
    direct := some ECost.inf, costs := some [], saved := some (ECost.fin 3),
    monitor := some { running := false, timerId := 0 } }

/-- Witness state for C10: node `a` is administratively down, with saved
pre-down cost 3. -/
def wS10 : State := { nodes := [(kM, selfNode), (kA, nDownA)], me := kM, gen := 1 }

theorem C10_witness :
    ((wS10.nodes.map Prod.fst).Nodup ∧ lookupA wS10.nodes kA = some nDownA ∧
      nDownA.is_neighbor = false ∧ nDownA.saved = some (ECost.fin 3)) ∧
    (∃ n', lookupA (update_costs wS10 kA csW6 dW6).nodes kA = some n' ∧
      n'.is_neighbor = true ∧ n'.direct = some dW6 ∧ n'.saved = none ∧
      linkup (update_costs wS10 kA csW6 dW6) kA = update_costs wS10 kA csW6 dW6) :=
  ⟨⟨by decide, by decide, by decide, by decide⟩,
    C10_promote_discards_saved wS10 kA csW6 dW6 (ECost.fin 3) nDownA
      (by decide) (by decide) (by decide) (by decide)⟩

@[simp] lemma estimate_me (s : State) : (estimate_costs s).me = s.me := rfl

lemma selfInvB_iff (s : State) : selfInvB s = true ↔
    ∃ n, lookupA s.nodes s.me = some n ∧ n.cost = ECost.fin 0 ∧ n.route = "" ∧
      n.is_neighbor = false ∧ n.saved = none := by
  unfold selfInvB
  cases h : lookupA s.nodes s.me with
  | none => simp
  | some n => simp

lemma selfInv_estimate (s : State) (h : selfInvB s = true) :
    selfInvB (estimate_costs s) = true := by
  rcases (selfInvB_iff s).mp h with ⟨n, hlk, hp⟩
  apply (selfInvB_iff _).mpr
  refine ⟨n, ?_, hp⟩
  show lookupA (estimate_costs s).nodes s.me = some n
  rw [lookupA_estimate, hlk]
  simp

lemma selfInv_linkdown (s : State) (a : String) (h : selfInvB s = true) :
    selfInvB (linkdown s a) = true := by
  rcases (selfInvB_iff s).mp h with ⟨n, hlk, hc, hr, hnb, hsv⟩
  cases hla : lookupA s.nodes a with
  | none =>
      have hget : get_node s a =
          (default_node, { s with nodes := s.nodes ++ [(a, default_node)] }, true) := by
        simp [get_node, hla]
      have heq : linkdown s a = { s with nodes := s.nodes ++ [(a, default_node)] } := by
        simp [linkdown, hget]
      rw [heq]
      exact (selfInvB_iff _).mpr ⟨n, lookupA_append_some hlk, hc, hr, hnb, hsv⟩
  | some na =>
      have hget : get_node s a = (na, s, false) := by simp [get_node, hla]
      cases hnbna : na.is_neighbor with
      | false =>
          have heq : linkdown s a = s := by simp [linkdown, hget, hnbna]
          rw [heq]
          exact h
      | true =>
          have hne : a ≠ s.me := by
            intro he
            rw [he, hlk] at hla
            injection hla with hx
            rw [← hx, hnb] at hnbna
            simp at hnbna
          have heq : linkdown s a =
              estimate_costs { s with nodes := updateA s.nodes a (down_node na) } := by
            simp [linkdown, hget, hnbna]
          rw [heq]
          apply (selfInvB_iff _).mpr
          refine ⟨n, ?_, hc, hr, hnb, hsv⟩
          rw [lookupA_estimate, estimate_me]
          dsimp only
          rw [lookupA_updateA_ne (Ne.symm hne), hlk]
          simp [estimate_node]

lemma selfInv_linkup (s : State) (a : String) (h : selfInvB s = true) :
    selfInvB (linkup s a) = true := by
  rcases (selfInvB_iff s).mp h with ⟨n, hlk, hc, hr, hnb, hsv⟩
  cases hla : lookupA s.nodes a with
  | none =>
      have hget : get_node s a =
          (default_node, { s with nodes := s.nodes ++ [(a, default_node)] }, true) := by
        simp [get_node, hla]
      have heq : linkup s a = { s with nodes := s.nodes ++ [(a, default_node)] } := by
        simp [linkup, hget]
      rw [heq]
      exact (selfInvB_iff _).mpr ⟨n, lookupA_append_some hlk, hc, hr, hnb, hsv⟩
  | some na =>
      have hget : get_node s a = (na, s, false) := by simp [get_node, hla]
      cases hna : na.saved with
      | none =>
          have heq : linkup s a = s := by simp [linkup, hget, hna]
          rw [heq]
          exact h
      | some sv =>
          have hne : a ≠ s.me := by
            intro he
            rw [he, hlk] at hla
            injection hla with hx
            rw [← hx, hsv] at hna
            exact Option.noConfusion hna
          have heq : linkup s a =
              estimate_costs { s with nodes := updateA s.nodes a (up_node na sv) } := by
            simp [linkup, hget, hna]
          rw [heq]
          apply (selfInvB_iff _).mpr
          refine ⟨n, ?_, hc, hr, hnb, hsv⟩
          rw [lookupA_estimate, estimate_me]
          dsimp only
          rw [lookupA_updateA_ne (Ne.symm hne), hlk]
          simp [estimate_node]

lemma selfInv_linkchange (s : State) (a : String) (c : ECost) (h : selfInvB s = true) :
    selfInvB (linkchange s a c) = true := by
  rcases (selfInvB_iff s).mp h with ⟨n, hlk, hc, hr, hnb, hsv⟩
  cases hla : lookupA s.nodes a with
  | none =>
      have hget : get_node s a =
          (default_node, { s with nodes := s.nodes ++ [(a, default_node)] }, true) := by
        simp [get_node, hla]
      have heq : linkchange s a c = { s with nodes := s.nodes ++ [(a, default_node)] } := by
        simp [linkchange, hget]
      rw [heq]
      exact (selfInvB_iff _).mpr ⟨n, lookupA_append_some hlk, hc, hr, hnb, hsv⟩
  | some na =>
      have hget : get_node s a = (na, s, false) := by simp [get_node, hla]
      cases hnbna : na.is_neighbor with
      | false =>
          have heq : linkchange s a c = s := by simp [linkchange, hget, hnbna]
          rw [heq]
          exact h
      | true =>
          have hne : a ≠ s.me := by
            intro he
            rw [he, hlk] at hla
            injection hla with hx
            rw [← hx, hnb] at hnbna
            simp at hnbna
          by_cases hlt : elt c (ECost.fin 1) = true
          · have heq : linkchange s a c = s := by simp [linkchange, hget, hnbna, hlt]
            rw [heq]
            exact h
          · by_cases hsved : na.saved.isSome = true
            · have heq : linkchange s a c = s := by
                simp [linkchange, hget, hnbna, hlt, hsved]
              rw [heq]
              exact h
            · have heq : linkchange s a c = estimate_costs
                  { s with nodes := updateA s.nodes a { na with direct := some c } } := by
                simp [linkchange, hget, hnbna, hlt, hsved]
              rw [heq]
              apply (selfInvB_iff _).mpr
              refine ⟨n, ?_, hc, hr, hnb, hsv⟩
              rw [lookupA_estimate, estimate_me]
              dsimp only
              rw [lookupA_updateA_ne (Ne.symm hne), hlk]
              simp [estimate_node]

lemma selfInv_update (s : State) (a : String) (cs : List (String × ECost)) (d : ECost)
    (hne : a ≠ s.me) (h : selfInvB s = true) :
    selfInvB (update_costs s a cs d) = true := by
  rcases (selfInvB_iff s).mp h with ⟨n, hlk, hc, hr, hnb, hsv⟩
  have h1 : lookupA (createAll s.nodes cs) s.me = some n := createAll_lookup_some cs hlk
  have h2 : lookupA (materialize (createAll s.nodes cs) a).2 s.me = some n := by
    cases hma : lookupA (createAll s.nodes cs) a with
    | some x => simpa [materialize, hma] using h1
    | none =>
        simp only [materialize, hma]
        exact lookupA_append_some h1
  rw [update_costs_split]
  by_cases hcond : (materialize (createAll s.nodes cs) a).1.is_neighbor = true
  · rw [if_pos hcond]
    have hb : update_costs_refresh s a cs = estimate_costs { s with
        nodes := updateA (materialize (createAll s.nodes cs) a).2 a { (materialize (createAll s.nodes cs) a).1 with costs := some cs, monitor := (materialize (createAll s.nodes cs) a).1.monitor.map (fun _ => { running := true, timerId := s.gen }) },
        gen := s.gen + 1 } := rfl
    rw [hb]
    apply (selfInvB_iff _).mpr
    refine ⟨n, ?_, hc, hr, hnb, hsv⟩
    rw [lookupA_estimate, estimate_me]
    dsimp only
    rw [lookupA_updateA_ne (Ne.symm hne), h2]
    simp [estimate_node]
  · rw [if_neg hcond]
    have hb : update_costs_promote s a cs d = estimate_costs { s with
        nodes := eraseA (materialize (createAll s.nodes cs) a).2 a ++ [(a, create_node ECost.inf true (some d) (some cs) a s.gen)],
        gen := s.gen + 1 } := rfl
    rw [hb]
    apply (selfInvB_iff _).mpr
    refine ⟨n, ?_, hc, hr, hnb, hsv⟩
    have h3 : lookupA (eraseA (materialize (createAll s.nodes cs) a).2 a) s.me = some n := by
      rw [lookupA_eraseA_ne (Ne.symm hne)]
      exact h2
    rw [lookupA_estimate, estimate_me]
    dsimp only
    rw [lookupA_append_some h3]
    simp [estimate_node]

lemma selfInv_applyOp (s : State) (op : Op) (h : selfInvB s = true)
    (hb : benignOp s.me op = true) : selfInvB (applyOp s op) = true := by
  cases op with
  | update a cs d =>
      have hne : a ≠ s.me := by simpa [benignOp] using hb
      exact selfInv_update s a cs d hne h
  | down a => exact selfInv_linkdown s a h
  | up a => exact selfInv_linkup s a h
  | change a c => exact selfInv_linkchange s a c h
  | recompute => exact selfInv_estimate s h
  | advertise => exact h

lemma linkdown_me (s : State) (a : String) : (linkdown s a).me = s.me := by
  unfold linkdown get_node
  cases hla : lookupA s.nodes a with
  | none => rfl
  | some na => cases hnb : na.is_neighbor <;> simp [hnb]

lemma linkup_me (s : State) (a : String) : (linkup s a).me = s.me := by
  unfold linkup get_node
  cases hla : lookupA s.nodes a with
  | none => rfl
  | some na => cases hna : na.saved <;> simp [hna]

lemma linkchange_me (s : State) (a : String) (c : ECost) : (linkchange s a c).me = s.me := by
  unfold linkchange get_node
  cases hla : lookupA s.nodes a with
  | none => rfl
  | some na =>
      cases hnb : na.is_neighbor with
      | false => simp [hnb]
      | true =>
          by_cases hlt : elt c (ECost.fin 1) = true
          · simp [hnb, hlt]
          · by_cases hsved : na.saved.isSome = true
            · simp [hnb, hlt, hsved]
            · simp [hnb, hlt, hsved]

lemma update_costs_me (s : State) (X : String) (cs : List (String × ECost)) (d : ECost) :
    (update_costs s X cs d).me = s.me := by
  rw [update_costs_split]
  split
  · rfl
  · rfl

lemma applyOp_me (s : State) (op : Op) : (applyOp s op).me = s.me := by
  cases op with
  | update a cs d => exact update_costs_me s a cs d
  | down a => exact linkdown_me s a
  | up a => exact linkup_me s a
  | change a c => exact linkchange_me s a c
  | recompute => rfl
  | advertise => rfl

/-- C9 (amended, the half that holds): the self-entry invariant — present in
the table with cost 0, empty route, no neighbor flag and no saved cost — is
preserved by recomputation, advertisement building, all link operations on
any address, and every cost update whose sender is not the own address.  A
cost update whose sender address equals the own address breaks it (see the
counterexample). -/
theorem C9_amended (s : State) (ops : List Op) (h : selfInvB s = true)
    (hb : ∀ op ∈ ops, benignOp s.me op = true) :
    selfInvB (runOps s ops) = true := by
  induction ops generalizing s with
  | nil => exact h
  | cons op rest ih =>
      rw [runOps]
      apply ih
      · exact selfInv_applyOp s op h (hb op (by simp))
      · intro op2 hop2
        rw [applyOp_me]
        exact hb op2 (List.mem_cons_of_mem _ hop2)

/-- Witness state for C9: the self entry as built at startup. -/
def wS9 : State := { nodes := [(kM, selfNode)], me := kM, gen := 0 }

/-- C9 (counterexample): starting from a valid self entry, a single
cost-update whose sender address equals the own address promotes the self
entry to a neighbor: afterwards its cost is infinity (the promotion branch
re-reads the just-deleted entry through the defaultdict), its route is the
own address, and `is_neighbor` is true — `estimate_costs` skips the self
entry, so nothing repairs it. -/
theorem C9_counterexample :
    selfInvB wS9 = true ∧
    benignOp wS9.me (Op.update kM [] (ECost.fin 1)) = false ∧
    (lookupA (update_costs wS9 kM [] (ECost.fin 1)).nodes kM).map
        (fun n => (n.cost, n.route, n.is_neighbor)) =
      some (ECost.inf, kM, true) := by
  decide

def opsW9 : List Op :=
  [Op.update kX [(kY, ECost.fin 2)] (ECost.fin 1), Op.recompute, Op.down kX,
   Op.up kX, Op.change kX (ECost.fin 2), Op.advertise, Op.down kM, Op.up kM,
   Op.change kM (ECost.fin 5)]

theorem C9_amended_witness :
    (selfInvB wS9 = true ∧ ∀ op ∈ opsW9, benignOp wS9.me op = true) ∧
    selfInvB (runOps wS9 opsW9) = true :=
  ⟨⟨by decide, by decide⟩, C9_amended wS9 opsW9 (by decide) (by decide)⟩

end CV
